import Mathlib

/-!
# WebInsight-API: a shallow embedding of the core components, with proofs

This file embeds the core algorithms of the WebInsight-API repository in Lean 4
and proves (or refutes) the specification's claims about them:

* `scraper.py` — `WebScraper.parse_content`, `WebScraper._extract_article_content`
  and `WebScraper._clean_text`, modelled over an abstract DOM (`Node`).  The DOM
  stands for the tree produced by BeautifulSoup's lenient `html.parser`, which
  accepts arbitrary input; HTML parsing itself and the third-party `html2text`
  converter are external libraries and enter the model as parameters.
* `rate_limiter.py` — `RateLimiter.is_rate_limited`, modelled as a pure state
  transformer over an association list of per-client timestamp sequences.
  Timestamps are modelled as integers (the code uses floats; only ordered-field
  comparisons are performed, so the claims are insensitive to this choice).
* `analyzer.py` — `PerplexityAnalyzer.analyze` / `_build_prompt`, with the
  network call modelled as an oracle `String → Nat → Except String String`
  giving the outcome of calling the API with a given prompt on each attempt,
  and logging captured as an explicit event list.

Python regular-expression substitutions are embedded as single left-to-right
scans with non-overlapping matches whose replacement is not rescanned, exactly
as `re.sub` behaves; character classes (`\s`, `\d`) and case folding are
modelled on ASCII.
-/

set_option maxRecDepth 40000

namespace WebInsight

/-! ## Characters and basic string operations -/

/-- Python's `\s` character class (ASCII part): space, tab, newline, carriage
return, vertical tab, form feed. -/
def isWs (c : Char) : Bool :=
  c = ' ' || c = '\t' || c = '\n' || c = '\r' || c = '\x0b' || c = '\x0c'

/-- Drop leading whitespace. -/
def dropLeadingWs : List Char → List Char
  | [] => []
  | c :: cs => if isWs c then dropLeadingWs cs else c :: cs

/-- Drop trailing whitespace. -/
def dropTrailingWs : List Char → List Char
  | [] => []
  | c :: cs =>
    match dropTrailingWs cs with
    | [] => if isWs c then [] else [c]
    | l => c :: l

/-- Python `str.strip()` on a character list: drop whitespace from both ends. -/
def stripChars (cs : List Char) : List Char :=
  dropTrailingWs (dropLeadingWs cs)

/-- Python `str.strip()`. -/
def pyStrip (s : String) : String := String.mk (stripChars s.toList)

/-! ## Regex substitution scans

Each `re.sub` in the source is embedded as one left-to-right scan: at every
position a matcher reports the length of the (leftmost, per the concrete
pattern's semantics) match starting there, the replacement is emitted, the
matched characters are skipped, and scanning resumes after the match.  All
matchers used here only succeed with positive length. -/

/-- Generic `re.sub` scan.  `m cs` yields the length of a match starting at
`cs` (if any), `repl` is the fixed replacement string.  The `Nat` argument
counts characters of a previous match that remain to be skipped. -/
def subMatchAux (m : List Char → Option Nat) (repl : List Char) :
    List Char → Nat → List Char
  | [], _ => []
  | _ :: cs, k + 1 => subMatchAux m repl cs k
  | c :: cs, 0 =>
    match m (c :: cs) with
    | some len => repl ++ subMatchAux m repl cs (len - 1)
    | none => c :: subMatchAux m repl cs 0

/-- `re.sub(pattern, repl, s)` for a matcher `m`. -/
def subMatch (m : List Char → Option Nat) (repl : List Char) (cs : List Char) :
    List Char :=
  subMatchAux m repl cs 0

/-- Does `pat` occur at the head of `cs`, comparing case-insensitively
(`re.IGNORECASE`, ASCII folding)? -/
def matchLitCI : List Char → List Char → Bool
  | [], _ => true
  | _ :: _, [] => false
  | p :: ps, c :: cs => (c.toLower = p.toLower) && matchLitCI ps cs

/-- Matcher for a literal pattern under `re.IGNORECASE`.  All literal patterns
in the source are nonempty; the guard keeps match lengths positive. -/
def litCIMatcher (pat : List Char) (cs : List Char) : Option Nat :=
  if !pat.isEmpty && matchLitCI pat cs then some pat.length else none

/-- Matcher for the source pattern `r'Â© \d{4}'` (the mojibake copyright sign
as written in `scraper.py`, a space, then exactly four digits). -/
def copyrightMatcher : List Char → Option Nat
  | 'Â' :: '©' :: ' ' :: d1 :: d2 :: d3 :: d4 :: _ =>
    if d1.isDigit && d2.isDigit && d3.isDigit && d4.isDigit then some 7 else none
  | _ => none

/-- One entry of `common_patterns` in `WebScraper._clean_text`. -/
inductive BoilerPat where
  | lit (s : String)
  | copyrightYear
deriving Repr

/-- Matcher of a boilerplate pattern. -/
def patMatcher : BoilerPat → List Char → Option Nat
  | .lit s, cs => litCIMatcher s.toList cs
  | .copyrightYear, cs => copyrightMatcher cs

/-- `common_patterns` from `WebScraper._clean_text`, in source order. -/
def commonPatterns : List BoilerPat :=
  [.lit "Menu", .lit "Search", .lit "Home", .lit "Contact", .lit "About",
   .lit "Privacy Policy", .lit "Terms of Service", .copyrightYear,
   .lit "All Rights Reserved", .lit "Copyright"]

/-- The boilerplate-stripping loop of `_clean_text`:
`for pattern in common_patterns: text = re.sub(pattern, '', text, flags=re.IGNORECASE)`. -/
def removeBoilerplate (cs : List Char) : List Char :=
  commonPatterns.foldl (fun acc p => subMatch (patMatcher p) [] acc) cs

/-- `re.sub(r'\s+', ' ', text)`: every maximal whitespace run becomes a single
space.  The flag records whether we are inside a run already replaced. -/
def collapseWsAux : Bool → List Char → List Char
  | _, [] => []
  | inRun, c :: cs =>
    if isWs c then
      if inRun then collapseWsAux true cs
      else ' ' :: collapseWsAux true cs
    else c :: collapseWsAux false cs

/-- `re.sub(r'\s+', ' ', text)`. -/
def collapseWs (cs : List Char) : List Char := collapseWsAux false cs

/-- Position of the last newline in a character list, if any. -/
def lastNlPos : List Char → Option Nat
  | [] => none
  | c :: cs =>
    match lastNlPos cs with
    | some n => some (n + 1)
    | none => if c = '\n' then some 0 else none

/-- Matcher for `r'\n\s*\n+'`.  With Python's backtracking semantics the match
starts at a newline, and (greedy `\s*` backtracking until `\n+` can fire)
consumes the following whitespace run up to and including its last newline, so
it succeeds exactly when that run contains a newline. -/
def blankRunMatcher : List Char → Option Nat
  | [] => none
  | c :: cs =>
    if c = '\n' then
      match lastNlPos (cs.takeWhile isWs) with
      | some k => some (k + 2)
      | none => none
    else none

/-- `re.sub(r'\n\s*\n+', '\n\n', text)`. -/
def subBlankRuns (cs : List Char) : List Char :=
  subMatch blankRunMatcher ['\n', '\n'] cs

/-- Lazy scan of `.*?c`: length up to and including the first occurrence of
`target`, failing at a newline (`.` does not match `\n`). -/
def scanToLen (target : Char) : List Char → Option Nat
  | [] => none
  | c :: cs =>
    if c = target then some 1
    else if c = '\n' then none
    else (scanToLen target cs).map (· + 1)

/-- Match length of `.*?\]\(.*?\)` (the body of the image pattern): lazily find
a `]` directly followed by `(`, then lazily find `)`; on an inner failure the
outer lazy quantifier resumes at the next candidate, as the regex engine does. -/
def bracketParenLen : List Char → Option Nat
  | [] => none
  | ']' :: cs =>
    match cs with
    | '(' :: cs2 =>
      match scanToLen ')' cs2 with
      | some n => some (n + 2)
      | none => (bracketParenLen cs).map (· + 1)
    | _ => (bracketParenLen cs).map (· + 1)
  | c :: cs =>
    if c = '\n' then none else (bracketParenLen cs).map (· + 1)

/-- Matcher for `r'!\[.*?\]\(.*?\)'` (Markdown image syntax). -/
def imageMatcher : List Char → Option Nat
  | '!' :: '[' :: cs => (bracketParenLen cs).map (· + 2)
  | _ => none

/-- `re.sub(r'!\[.*?\]\(.*?\)', '', markdown)`. -/
def subImages (cs : List Char) : List Char := subMatch imageMatcher [] cs

/-- Python `text.split('\n')` (always at least one piece). -/
def splitOnNl : List Char → List (List Char)
  | [] => [[]]
  | c :: cs =>
    match splitOnNl cs with
    | [] => [[]]
    | l :: ls => if c = '\n' then [] :: l :: ls else (c :: l) :: ls

/-- The character-level part of `WebScraper._clean_text`: collapse all
whitespace runs to one space, re-collapse blank-line runs, then strip the
boilerplate patterns case-insensitively. -/
def cleanCore (s : String) : List Char :=
  removeBoilerplate (subBlankRuns (collapseWs s.toList))

/-- `WebScraper._clean_text`: after `cleanCore`, split on newlines, strip each
line, drop empty lines and rejoin the survivors with a blank line between
each. -/
def cleanText (s : String) : String :=
  let lines := (splitOnNl (cleanCore s)).map stripChars
  let cleaned := lines.filter (fun l => !l.isEmpty)
  String.mk (List.intercalate ['\n', '\n'] cleaned)

/-! ## DOM model

`Node` stands for the element/text tree BeautifulSoup's lenient `html.parser`
produces; that parser accepts every input string, so documents enter the model
directly as trees.  Attributes are kept as raw key/value strings (first
occurrence wins for duplicates, as in the parser). -/

inductive Node where
  | elem (tag : String) (attrs : List (String × String)) (children : List Node)
  | text (s : String)
deriving Repr

mutual
/-- All text-node strings below a node, in document order. -/
def nodeTexts : Node → List String
  | .text s => [s]
  | .elem _ _ ch => forestTexts ch
/-- All text-node strings below a forest, in document order. -/
def forestTexts : List Node → List String
  | [] => []
  | n :: ns => nodeTexts n ++ forestTexts ns
end

/-- BeautifulSoup `tag.get_text(separator=sep)`. -/
def getTextSep (sep : String) (n : Node) : String :=
  String.intercalate sep (nodeTexts n)

/-- BeautifulSoup `tag.get_text()` / `tag.text`. -/
def getText (n : Node) : String := String.join (nodeTexts n)

mutual
/-- All element nodes of a subtree in document (depth-first preorder) order. -/
def nodeElems : Node → List Node
  | .text _ => []
  | .elem t a ch => .elem t a ch :: forestElems ch
/-- All element nodes of a forest in document order. -/
def forestElems : List Node → List Node
  | [] => []
  | n :: ns => nodeElems n ++ forestElems ns
end

/-- Tag name of an element (text nodes have none). -/
def Node.tag : Node → String
  | .elem t _ _ => t
  | .text _ => ""

/-- BeautifulSoup `tag.get(key)`: attribute lookup, first occurrence wins. -/
def Node.attr : Node → String → Option String
  | .elem _ attrs _, k => (attrs.find? (fun kv => kv.1 == k)).map (fun kv => kv.2)
  | .text _, _ => none

/-- Split an attribute value on whitespace (the parser's multi-valued `class`
attribute). -/
def wsWordsAux : List Char → List Char → List (List Char)
  | [], acc => if acc.isEmpty then [] else [acc.reverse]
  | c :: cs, acc =>
    if isWs c then
      if acc.isEmpty then wsWordsAux cs [] else acc.reverse :: wsWordsAux cs []
    else wsWordsAux cs (c :: acc)

/-- The class tokens of an element. -/
def classListOf (n : Node) : List String :=
  (wsWordsAux ((n.attr "class").getD "").toList []).map String.mk

/-- Case-sensitive literal prefix test. -/
def matchLitExact : List Char → List Char → Bool
  | [], _ => true
  | _ :: _, [] => false
  | p :: ps, c :: cs => (c = p) && matchLitExact ps cs

/-! ## `WebScraper._extract_article_content` -/

/-- Does an element match the Method-1 selector list
`article, .article, .post, .content, main, #main, #content`? -/
def matchesContainerSel (n : Node) : Bool :=
  n.tag == "article" || (classListOf n).contains "article" ||
  (classListOf n).contains "post" || (classListOf n).contains "content" ||
  n.tag == "main" || n.attr "id" == some "main" || n.attr "id" == some "content"

/-- `soup.select('article, .article, .post, .content, main, #main, #content')`:
all matching elements, in document order. -/
def containerMatches (soup : List Node) : List Node :=
  (forestElems soup).filter matchesContainerSel

/-- `soup.find_all('p')`. -/
def pTags (soup : List Node) : List Node :=
  (forestElems soup).filter (fun n => n.tag == "p")

/-- Method 2's joined string:
`'\n\n'.join([p.get_text().strip() for p in p_tags if len(p.get_text().strip()) > 40])`. -/
def method2Join (soup : List Node) : String :=
  String.intercalate "\n\n"
    (((pTags soup).map (fun p => pyStrip (getText p))).filter (fun t => t.length > 40))

/-- `soup.find_all(['div', 'section'])`. -/
def divSections (soup : List Node) : List Node :=
  (forestElems soup).filter (fun n => n.tag == "div" || n.tag == "section")

/-- Method 3's surviving candidates: stripped texts of the `div`/`section`
elements whose stripped text is longer than 200 characters, document order. -/
def textBlocksOf (soup : List Node) : List String :=
  ((divSections soup).map (fun t => pyStrip (getText t))).filter
    (fun t => t.length > 200)

/-- `text_blocks.sort(key=lambda x: len(x[1]), reverse=True)` followed by
`text_blocks[0][1]`: Python's sort is stable, so the head of the descending
sort is the first element of maximal length, which this fold computes. -/
def firstMax : List String → Option String
  | [] => none
  | t :: ts =>
    some (ts.foldl (fun best x => if x.length > best.length then x else best) t)

/-- Method 4: run the external `html2text` converter (`h2t`, a parameter of the
model) over the document, then strip Markdown image syntax and collapse blank
lines as in the source. -/
def method4Out (h2t : List Node → String) (soup : List Node) : String :=
  String.mk (subBlankRuns (subImages (h2t soup).toList))

/-- `WebScraper._extract_article_content`. -/
def extractArticleContent (h2t : List Node → String) (soup : List Node) : String :=
  match containerMatches soup with
  | c :: _ => getTextSep "\n" c
  | [] =>
    if (pTags soup).length > 3 ∧ (method2Join soup).length > 500 then
      method2Join soup
    else
      match firstMax (textBlocksOf soup) with
      | some t => t
      | none => method4Out h2t soup

/-- Which of the four extraction methods `_extract_article_content` commits to:
the branch conditions of the source, made observable. -/
def selectsMethod (soup : List Node) : Nat :=
  match containerMatches soup with
  | _ :: _ => 1
  | [] =>
    if (pTags soup).length > 3 ∧ (method2Join soup).length > 500 then 2
    else
      match firstMax (textBlocksOf soup) with
      | some _ => 3
      | none => 4

/-! ## `WebScraper.parse_content` -/

/-- `soup.find('title')`. -/
def findTitle (soup : List Node) : Option Node :=
  (forestElems soup).find? (fun n => n.tag == "title")

/-- The title extraction of `parse_content`. -/
def titleOf (soup : List Node) : String :=
  match findTitle soup with
  | some t => pyStrip (getText t)
  | none => ""

/-- `soup.find('meta', attrs={'name': 'description'})`. -/
def findMetaDesc (soup : List Node) : Option Node :=
  (forestElems soup).find?
    (fun n => n.tag == "meta" && n.attr "name" == some "description")

/-- The meta-description extraction of `parse_content`
(`if meta_desc and meta_desc.get('content')`, i.e. attribute present and
nonempty, then the stripped value). -/
def descriptionOf (soup : List Node) : String :=
  match findMetaDesc soup with
  | some m =>
    if (m.attr "content").getD "" ≠ "" then pyStrip ((m.attr "content").getD "")
    else ""
  | none => ""

/-- Python `s.replace(pat, '')` for a nonempty literal `pat`: remove every
non-overlapping occurrence, left to right. -/
def removeAllOcc (pat : String) (s : String) : String :=
  String.mk (subMatch
    (fun cs => if !pat.toList.isEmpty && matchLitExact pat.toList cs then
        some pat.toList.length
      else none)
    [] s.toList)

/-- `meta.get('property', '').replace('og:', '')`. -/
def ogKey (property : String) : String := removeAllOcc "og:" property

/-- `value` starts with `"og:"` — what `re.compile('^og:').search(value)`
tests. -/
def startsWithOg (s : String) : Bool := matchLitExact ("og:".toList) s.toList

/-- An element matched by `soup.find_all('meta', property=re.compile('^og:'))`:
a `meta` whose `property` attribute is present and starts with `og:`. -/
def isOgMeta (n : Node) : Bool :=
  n.tag == "meta" && startsWithOg ((n.attr "property").getD "")

/-- Python dict assignment `d[k] = v` on an association list: overwrite in
place if the key exists, otherwise append. -/
def dictInsert {α : Type} : List (String × α) → String → α → List (String × α)
  | [], k, v => [(k, v)]
  | (k', v') :: rest, k, v =>
    if k' = k then (k, v) :: rest else (k', v') :: dictInsert rest k v

/-- Python dict lookup `d.get(k)` on an association list. -/
def dictLookup {α : Type} (m : List (String × α)) (k : String) : Option α :=
  (m.find? (fun kv => kv.1 == k)).map (fun kv => kv.2)

/-- The body of the Open-Graph loop of `parse_content` for one `meta` element:
`property_name = meta.get('property', '').replace('og:', '')`;
`if property_name and meta.get('content'): og_data[property_name] = meta['content'].strip()`. -/
def ogMetaStep (m : List (String × String)) (n : Node) : List (String × String) :=
  let key := ogKey ((n.attr "property").getD "")
  if key ≠ "" ∧ (n.attr "content").getD "" ≠ "" then
    dictInsert m key (pyStrip ((n.attr "content").getD ""))
  else m

/-- The `og_data` dictionary built by `parse_content`. -/
def ogDataOf (soup : List Node) : List (String × String) :=
  ((forestElems soup).filter isOgMeta).foldl ogMetaStep []

/-- The key/value pair a single `meta` element contributes to `og_data`, when
it passes the loop body's guard (`if property_name and meta.get('content')`). -/
def ogEntry (n : Node) : Option (String × String) :=
  let key := ogKey ((n.attr "property").getD "")
  if key ≠ "" ∧ (n.attr "content").getD "" ≠ "" then
    some (key, pyStrip ((n.attr "content").getD ""))
  else none

/-- The qualifying Open-Graph contributions of a document, in document order. -/
def ogQualifying (soup : List Node) : List (String × String) :=
  ((forestElems soup).filter isOgMeta).filterMap ogEntry

/-- The result record of `parse_content`. -/
structure PageContent where
  title : String
  description : String
  og_data : List (String × String)
  content : String
deriving Repr, DecidableEq

/-- `WebScraper.parse_content` over a parsed document. -/
def parseContent (h2t : List Node → String) (soup : List Node) : PageContent :=
  { title := titleOf soup
    description := descriptionOf soup
    og_data := ogDataOf soup
    content := cleanText (extractArticleContent h2t soup) }

/-! To settle whether `parse_content` can raise, the two dictionary subscripts
it performs (`meta_desc['content']` and `meta['content']`, the only fallible
operations in its body — every other operation it uses is total on the parsed
tree) are re-embedded in an error monad, `KeyError` included, and the whole
function is shown to never reach the error case. -/

/-- Python `tag[key]`: raises `KeyError` when the attribute is absent. -/
def getItemE (n : Node) (k : String) : Except String String :=
  match n.attr k with
  | some v => Except.ok v
  | none => Except.error "KeyError"

/-- Fallible variant of the description extraction, with the guarded subscript
`meta_desc['content']` made explicit. -/
def descriptionOfE (soup : List Node) : Except String String :=
  match findMetaDesc soup with
  | some m =>
    if (m.attr "content").getD "" ≠ "" then do
      let c ← getItemE m "content"
      pure (pyStrip c)
    else pure ""
  | none => pure ""

/-- Fallible variant of the Open-Graph loop body, with the guarded subscript
`meta['content']` made explicit. -/
def ogMetaStepE (m : List (String × String)) (n : Node) :
    Except String (List (String × String)) :=
  let key := ogKey ((n.attr "property").getD "")
  if key ≠ "" ∧ (n.attr "content").getD "" ≠ "" then do
    let c ← getItemE n "content"
    pure (dictInsert m key (pyStrip c))
  else pure m

/-- Fallible variant of `parse_content`: propagates any `KeyError` the body
could raise. -/
def parseContentE (h2t : List Node → String) (soup : List Node) :
    Except String PageContent := do
  let d ← descriptionOfE soup
  let og ← ((forestElems soup).filter isOgMeta).foldlM ogMetaStepE []
  pure { title := titleOf soup
         description := d
         og_data := og
         content := cleanText (extractArticleContent h2t soup) }

/-! ## `RateLimiter` (rate_limiter.py) -/

/-- Configuration of a `RateLimiter` instance.  Timestamps and the window are
modelled as integers (the source uses float seconds; only ordered comparisons
occur). -/
structure RateLimiter where
  limit : Nat
  window : Int
deriving Repr

/-- The `clients` dictionary: per-client recorded timestamps. -/
abbrev RLClients := List (String × List Int)

/-- `RateLimiter.is_rate_limited(client_id)` at time `now`: create the entry if
missing, prune to timestamps `t` with `now - t < window`, then either report
limited (storing only the pruned list) or record `now` and admit.  Returns
(limited?, new clients map). -/
def isRateLimited (rl : RateLimiter) (clients : RLClients) (cid : String)
    (now : Int) : Bool × RLClients :=
  let entry := (dictLookup clients cid).getD []
  let pruned := entry.filter (fun t => now - t < rl.window)
  if pruned.length ≥ rl.limit then (true, dictInsert clients cid pruned)
  else (false, dictInsert clients cid (pruned ++ [now]))

/-- The spec's admission call for a client: a request proceeds exactly when
`is_rate_limited` answers `False` (the `rate_limit` decorator in the source). -/
def admitClient (rl : RateLimiter) (clients : RLClients) (cid : String)
    (now : Int) : Bool × RLClients :=
  let r := isRateLimited rl clients cid now
  (!r.1, r.2)

/-- Run a sequence of admission calls for one client at the given times,
starting from an empty limiter, collecting the admission answers. -/
def runAdmits (rl : RateLimiter) (cid : String) (times : List Int) :
    List Bool × RLClients :=
  times.foldl (fun acc t =>
    let r := admitClient rl acc.2 cid t
    (acc.1 ++ [r.1], r.2)) ([], [])

/-- The pruned timestamp list `is_rate_limited` computes for a client: the
stored entry restricted to timestamps within the last `window` seconds. -/
def prunedEntry (rl : RateLimiter) (clients : RLClients) (cid : String)
    (now : Int) : List Int :=
  ((dictLookup clients cid).getD []).filter (fun t => now - t < rl.window)

/-! ## `PerplexityAnalyzer` (analyzer.py) -/

/-- Log levels the analyzer emits on failures. -/
inductive LogLevel where
  | warning
  | error
deriving Repr, DecidableEq

/-- One observability-sink event. -/
structure LogEvent where
  level : LogLevel
  msg : String
deriving Repr, DecidableEq

/-- Outcome of `PerplexityAnalyzer.analyze`: a returned result, a raised
exception message, or Python's implicit `None` (the `for` loop body never ran,
i.e. `max_retries = 0`). -/
inductive CallResult where
  | ok (s : String)
  | exn (msg : String)
  | noneReturn
deriving Repr, DecidableEq

/-- `PerplexityAnalyzer._build_prompt(content, query_type)`, prompt texts
verbatim from the source (including the source's indentation whitespace inside
the first triple-quoted string). -/
def buildPrompt (content queryType : String) : String :=
  if queryType = "summary" then
    "Please provide a summary and key points for the following content.\n            \nContent:\n"
      ++ content
      ++ "\n\nSummary (approximately 300 characters):\nKey points (up to 5):\n"
  else if queryType = "analysis" then
    "Please provide a detailed analysis of the following content. Include main information, reliability assessment, additional related information, and different perspectives.\n\nContent:\n"
      ++ content
      ++ "\n\nAnalysis:\n1. Summary of main information\n2. Assessment of information reliability\n3. Supplementary information (from web search)\n4. Different perspectives or considerations\n5. Related data or statistics (if available)\n"
  else if queryType = "custom" then content
  else "Please summarize the following content:\n\n" ++ content ++ "\n"

/-- The retry loop of `analyze`, iterating over the remaining attempt indices
(`for attempt in range(self.max_retries)`).  `callApi i` is the outcome of
`self._call_api(prompt)` on attempt `i` (the network call is an oracle of the
model).  Returns the log events emitted and the call's outcome; the
`time.sleep(self.retry_delay)` between attempts has no observable effect here. -/
def analyzeLoopAux (maxRetries : Nat) (callApi : Nat → Except String String) :
    List Nat → List LogEvent × CallResult
  | [] => ([], .noneReturn)
  | attempt :: rest =>
    match callApi attempt with
    | .ok r => ([], .ok r)
    | .error e =>
      let warn : LogEvent :=
        ⟨.warning, "API call failed (attempt " ++ toString (attempt + 1) ++ "/" ++
          toString maxRetries ++ "): " ++ e⟩
      if attempt < maxRetries - 1 then
        let r := analyzeLoopAux maxRetries callApi rest
        (warn :: r.1, r.2)
      else
        ([warn, ⟨.error, "API call failed (max retries reached): " ++ e⟩],
         .exn ("Perplexity API call error: " ++ e))

/-- `PerplexityAnalyzer.analyze(content, query_type)`: reject a missing API key
(falsy = empty string), build the prompt, then run the retry loop. -/
def analyze (apiKey content queryType : String) (maxRetries : Nat)
    (callApi : String → Nat → Except String String) : List LogEvent × CallResult :=
  if apiKey = "" then ([], .exn "Perplexity API key is not configured")
  else
    analyzeLoopAux maxRetries (callApi (buildPrompt content queryType))
      (List.range maxRetries)

/-! ## Concrete documents and oracles used in the theorems below -/

/-- A trivial stand-in for the external `html2text` converter. -/
def h2tZero : List Node → String := fun _ => ""

/-- A document with one `<article>` and two `<div>` blocks longer than 200
characters. -/
def docC4 : List Node :=
  [.elem "html" [] [.elem "body" []
    [.elem "article" [] [.text "Short article text."],
     .elem "div" [] [.text (String.mk (List.replicate 250 'a'))],
     .elem "div" [] [.text (String.mk (List.replicate 300 'b'))]]]]

/-- A paragraph whose text is exactly 50 characters. -/
def para50 : Node := .elem "p" [] [.text (String.mk (List.replicate 50 'x'))]

/-- No article-like containers, exactly five 50-character paragraphs, no other
block over 200 characters. -/
def doc5 : List Node :=
  [.elem "html" [] [.elem "body" [] [para50, para50, para50, para50, para50]]]

/-- A paragraph whose text is exactly 110 characters. -/
def para110 : Node := .elem "p" [] [.text (String.mk (List.replicate 110 'y'))]

/-- No containers, five 110-character paragraphs (joined length 558 > 500). -/
def doc5b : List Node :=
  [.elem "html" [] [.elem "body" [] [para110, para110, para110, para110, para110]]]

/-- No containers or paragraphs; a single `<div>` whose trimmed text is exactly
200 characters. -/
def doc200 : List Node :=
  [.elem "html" [] [.elem "body" []
    [.elem "div" [] [.text (String.mk (List.replicate 200 'c'))]]]]

/-- No containers or paragraphs; a single `<div>` whose text has surrounding
whitespace and trims to 210 characters. -/
def doc210 : List Node :=
  [.elem "html" [] [.elem "body" [] [.elem "div" []
    [.text ("  " ++ String.mk (List.replicate 210 'd') ++ "  ")]]]]

/-- Two `og:title` metas, `A` then `B`. -/
def docAB : List Node :=
  [.elem "head" []
    [.elem "meta" [("property", "og:title"), ("content", "A")] [],
     .elem "meta" [("property", "og:title"), ("content", "B")] []]]

/-- An `og:title` meta whose `content` attribute is present but empty. -/
def docEmptyContent : List Node :=
  [.elem "meta" [("property", "og:title"), ("content", "")] []]

/-- A meta whose `property` is `og:og:title`. -/
def docOgOg : List Node :=
  [.elem "meta" [("property", "og:og:title"), ("content", "A")] []]

/-! ## Lemmas: the normalizer pipeline -/

lemma collapseWsAux_no_nl : ∀ (flag : Bool) (cs : List Char),
    '\n' ∉ collapseWsAux flag cs := by
  intro flag cs
  induction cs generalizing flag with
  | nil => simp [collapseWsAux]
  | cons c cs ih =>
    intro hmem
    by_cases hws : isWs c
    · cases flag with
      | true =>
        have heq : collapseWsAux true (c :: cs) = collapseWsAux true cs := by
          simp [collapseWsAux, hws]
        rw [heq] at hmem
        exact ih true hmem
      | false =>
        have heq : collapseWsAux false (c :: cs) = ' ' :: collapseWsAux true cs := by
          simp [collapseWsAux, hws]
        rw [heq] at hmem
        rcases List.mem_cons.mp hmem with h1 | h1
        · exact absurd h1 (by decide)
        · exact ih true h1
    · have heq : collapseWsAux flag (c :: cs) = c :: collapseWsAux false cs := by
        simp [collapseWsAux, hws]
      rw [heq] at hmem
      rcases List.mem_cons.mp hmem with h1 | h1
      · rw [← h1] at hws; exact hws (by decide)
      · exact ih false h1

lemma collapseWs_no_nl (cs : List Char) : '\n' ∉ collapseWs cs :=
  collapseWsAux_no_nl false cs

lemma blankRunMatcher_cons_ne {c : Char} (cs : List Char) (h : c ≠ '\n') :
    blankRunMatcher (c :: cs) = none := by
  simp [blankRunMatcher, h]

lemma subMatchAux_blank_id : ∀ (cs : List Char), (∀ c ∈ cs, c ≠ '\n') →
    subMatchAux blankRunMatcher ['\n', '\n'] cs 0 = cs := by
  intro cs
  induction cs with
  | nil => intro _; rfl
  | cons c cs ih =>
    intro h
    have hc : c ≠ '\n' := h c (List.mem_cons_self c cs)
    simp only [subMatchAux, blankRunMatcher_cons_ne cs hc]
    exact congrArg (c :: ·) (ih fun x hx => h x (List.mem_cons_of_mem c hx))

lemma subBlankRuns_id (cs : List Char) (h : ∀ c ∈ cs, c ≠ '\n') :
    subBlankRuns cs = cs :=
  subMatchAux_blank_id cs h

lemma mem_subMatchAux_nil (m : List Char → Option Nat) :
    ∀ (cs : List Char) (k : Nat) (c : Char), c ∈ subMatchAux m [] cs k → c ∈ cs := by
  intro cs
  induction cs with
  | nil => intro k c h; simp [subMatchAux] at h
  | cons a cs ih =>
    intro k c h
    cases k with
    | succ k' =>
      simp only [subMatchAux] at h
      exact List.mem_cons_of_mem a (ih k' c h)
    | zero =>
      cases hm : m (a :: cs) with
      | some len =>
        simp only [subMatchAux, hm, List.nil_append] at h
        exact List.mem_cons_of_mem a (ih (len - 1) c h)
      | none =>
        simp only [subMatchAux, hm] at h
        rcases List.mem_cons.mp h with h1 | h2
        · rw [h1]; exact List.mem_cons_self a cs
        · exact List.mem_cons_of_mem a (ih 0 c h2)

lemma mem_subMatch_nil (m : List Char → Option Nat) (cs : List Char) (c : Char)
    (h : c ∈ subMatch m [] cs) : c ∈ cs :=
  mem_subMatchAux_nil m cs 0 c h

lemma mem_foldl_boiler : ∀ (ps : List BoilerPat) (cs : List Char) (c : Char),
    c ∈ ps.foldl (fun acc p => subMatch (patMatcher p) [] acc) cs → c ∈ cs := by
  intro ps
  induction ps with
  | nil => intro cs c h; simpa using h
  | cons p ps ih =>
    intro cs c h
    rw [List.foldl_cons] at h
    exact mem_subMatch_nil _ _ _ (ih _ c h)

lemma cleanCore_no_nl (s : String) : ∀ c ∈ cleanCore s, c ≠ '\n' := by
  intro c hc hnl
  subst hnl
  unfold cleanCore removeBoilerplate at hc
  have h1 := mem_foldl_boiler commonPatterns _ _ hc
  rw [subBlankRuns_id _ (fun x hx hnl2 => collapseWs_no_nl _ (hnl2 ▸ hx))] at h1
  exact collapseWs_no_nl _ h1

lemma splitOnNl_no_nl : ∀ (cs : List Char), (∀ c ∈ cs, c ≠ '\n') →
    splitOnNl cs = [cs] := by
  intro cs
  induction cs with
  | nil => intro _; rfl
  | cons c cs ih =>
    intro h
    have hc : c ≠ '\n' := h c (List.mem_cons_self c cs)
    simp only [splitOnNl, ih (fun x hx => h x (List.mem_cons_of_mem c hx)), if_neg hc]

lemma mem_dropLeadingWs : ∀ (cs : List Char) (c : Char), c ∈ dropLeadingWs cs → c ∈ cs := by
  intro cs
  induction cs with
  | nil => intro c h; simp [dropLeadingWs] at h
  | cons a cs ih =>
    intro c h
    by_cases ha : isWs a
    · simp only [dropLeadingWs, ha, ite_true] at h
      exact List.mem_cons_of_mem a (ih c h)
    · simpa [dropLeadingWs, ha] using h

lemma mem_dropTrailingWs : ∀ (cs : List Char) (c : Char), c ∈ dropTrailingWs cs → c ∈ cs := by
  intro cs
  induction cs with
  | nil => intro c h; simp [dropTrailingWs] at h
  | cons a cs ih =>
    intro c h
    cases hd : dropTrailingWs cs with
    | nil =>
      simp only [dropTrailingWs, hd] at h
      by_cases ha : isWs a
      · simp [ha] at h
      · simp [ha] at h
        rw [h]; exact List.mem_cons_self a cs
    | cons b l =>
      simp only [dropTrailingWs, hd] at h
      rcases List.mem_cons.mp h with h1 | h2
      · rw [h1]; exact List.mem_cons_self a cs
      · exact List.mem_cons_of_mem a (ih c (by rw [hd]; exact h2))

lemma mem_stripChars (cs : List Char) (c : Char) (h : c ∈ stripChars cs) : c ∈ cs :=
  mem_dropLeadingWs cs c (mem_dropTrailingWs _ c h)

lemma dropLeadingWs_length_le : ∀ cs : List Char, (dropLeadingWs cs).length ≤ cs.length := by
  intro cs
  induction cs with
  | nil => simp [dropLeadingWs]
  | cons a cs ih =>
    by_cases ha : isWs a
    · simp only [dropLeadingWs, ha, ite_true]
      exact Nat.le_succ_of_le ih
    · simp [dropLeadingWs, ha]

lemma dropLeadingWs_idem : ∀ cs : List Char,
    dropLeadingWs (dropLeadingWs cs) = dropLeadingWs cs := by
  intro cs
  induction cs with
  | nil => rfl
  | cons a cs ih =>
    by_cases ha : isWs a
    · simp only [dropLeadingWs, ha, ite_true]; exact ih
    · simp [dropLeadingWs, ha]

lemma dropTrailingWs_cons (a : Char) (cs : List Char) :
    dropTrailingWs (a :: cs) =
      match dropTrailingWs cs with
      | [] => if isWs a then [] else [a]
      | l => a :: l := rfl

lemma dropTrailingWs_idem : ∀ cs : List Char,
    dropTrailingWs (dropTrailingWs cs) = dropTrailingWs cs := by
  intro cs
  induction cs with
  | nil => rfl
  | cons a cs ih =>
    cases hd : dropTrailingWs cs with
    | nil =>
      by_cases ha : isWs a
      · simp [dropTrailingWs, hd, ha]
      · simp [dropTrailingWs, hd, ha]
    | cons b l =>
      have h2 : dropTrailingWs (b :: l) = b :: l := by rw [← hd]; exact hd ▸ ih
      have h1 : dropTrailingWs (a :: cs) = a :: b :: l := by
        have := dropTrailingWs_cons a cs
        rw [hd] at this
        exact this
      rw [h1]
      have h3 := dropTrailingWs_cons a (b :: l)
      rw [h2] at h3
      exact h3

lemma dropLeadingWs_dropTrailingWs (cs : List Char) (h : dropLeadingWs cs = cs) :
    dropLeadingWs (dropTrailingWs cs) = dropTrailingWs cs := by
  cases cs with
  | nil => rfl
  | cons a cs =>
    have ha : ¬ isWs a = true := by
      intro ha
      have heq : dropLeadingWs (a :: cs) = dropLeadingWs cs := by
        simp [dropLeadingWs, ha]
      rw [heq] at h
      have hlen := dropLeadingWs_length_le cs
      rw [h] at hlen
      simp at hlen
    cases hd : dropTrailingWs cs with
    | nil => simp [dropTrailingWs, hd, ha, dropLeadingWs]
    | cons b l => simp [dropTrailingWs, hd, dropLeadingWs, ha]

lemma stripChars_idem (cs : List Char) : stripChars (stripChars cs) = stripChars cs := by
  unfold stripChars
  rw [dropLeadingWs_dropTrailingWs (dropLeadingWs cs) (dropLeadingWs_idem cs),
    dropTrailingWs_idem]

lemma toList_mk (l : List Char) : (String.mk l).toList = l := rfl

lemma cleanText_eq_strip_core (s : String) :
    cleanText s = String.mk (stripChars (cleanCore s)) := by
  unfold cleanText
  rw [splitOnNl_no_nl _ (cleanCore_no_nl s)]
  cases h : stripChars (cleanCore s) with
  | nil => simp [h, List.intercalate]
  | cons a l => simp [h, List.intercalate, List.intersperse]

/-! ## Claim theorems: the normalizer -/

/-- C9: for every input string, running the blank-line re-collapse
(`re.sub(r'\n\s*\n+', '\n\n', ·)`) after the global whitespace collapse
(`re.sub(r'\s+', ' ', ·)`) returns exactly the output of the whitespace
collapse alone: the first pass leaves no newline for the second pattern to
match, so the second collapsing pass of `_clean_text` is a no-op. -/
theorem blank_line_recollapse_noop (s : String) :
    subBlankRuns (collapseWs s.toList) = collapseWs s.toList :=
  subBlankRuns_id _ (fun _ hc hnl => collapseWs_no_nl _ (hnl ▸ hc))

/-- C8 counterexample: `_clean_text` is not idempotent on its own outputs.
Normalizing `"a Menu b"` yields `"a  b"` (boilerplate removal leaves a double
space), and normalizing that output again collapses the double space, changing
the string. -/
theorem clean_text_not_idempotent :
    cleanText "a Menu b" = "a  b" ∧ cleanText (cleanText "a Menu b") = "a b" ∧
    cleanText (cleanText "a Menu b") ≠ cleanText "a Menu b" := by
  decide

/-- C8 amended: `_clean_text` is idempotent on every output on which the
whitespace collapse and the boilerplate removal make no further change (in
particular on outputs with no double space and no boilerplate token);
normalization of such an output returns it unchanged. -/
theorem clean_text_conditional_idempotent (s : String)
    (h1 : collapseWs (cleanText s).toList = (cleanText s).toList)
    (h2 : removeBoilerplate (cleanText s).toList = (cleanText s).toList) :
    cleanText (cleanText s) = cleanText s := by
  have hnl : ∀ c ∈ (cleanText s).toList, c ≠ '\n' := by
    rw [cleanText_eq_strip_core, toList_mk]
    intro c hc
    exact cleanCore_no_nl s c (mem_stripChars _ c hc)
  have hcore : cleanCore (cleanText s) = (cleanText s).toList := by
    unfold cleanCore
    rw [h1, subBlankRuns_id _ hnl, h2]
  rw [cleanText_eq_strip_core (cleanText s), hcore, cleanText_eq_strip_core s,
    toList_mk, stripChars_idem]

/-- Witness for `clean_text_conditional_idempotent` at a concrete normalized
output. -/
theorem clean_text_conditional_idempotent_witness :
    cleanText (cleanText "hello  world") = cleanText "hello  world" :=
  clean_text_conditional_idempotent "hello  world" (by decide) (by decide)

/-! ## Lemmas: dictionaries and the Open-Graph extraction -/

lemma dictLookup_cons {α : Type} (k' : String) (v' : α) (rest : List (String × α))
    (k : String) :
    dictLookup ((k', v') :: rest) k = if k' = k then some v' else dictLookup rest k := by
  by_cases h : k' = k
  · have hb : (k' == k) = true := beq_iff_eq.mpr h
    simp [dictLookup, List.find?, hb, h]
  · have hb : (k' == k) = false := beq_eq_false_iff_ne.mpr h
    simp [dictLookup, List.find?, hb, h]

lemma dictInsert_cons {α : Type} (k' : String) (v' : α) (rest : List (String × α))
    (k : String) (v : α) :
    dictInsert ((k', v') :: rest) k v =
      if k' = k then (k, v) :: rest else (k', v') :: dictInsert rest k v := rfl

lemma dictLookup_dictInsert_self {α : Type} :
    ∀ (m : List (String × α)) (k : String) (v : α),
      dictLookup (dictInsert m k v) k = some v := by
  intro m
  induction m with
  | nil => intro k v; simp [dictInsert, dictLookup_cons]
  | cons kv rest ih =>
    intro k v
    obtain ⟨k', v'⟩ := kv
    rw [dictInsert_cons]
    by_cases h : k' = k
    · rw [if_pos h, dictLookup_cons, if_pos rfl]
    · rw [if_neg h, dictLookup_cons, if_neg h]
      exact ih k v

lemma dictLookup_dictInsert_ne {α : Type} :
    ∀ (m : List (String × α)) (k' k : String) (v : α), k' ≠ k →
      dictLookup (dictInsert m k' v) k = dictLookup m k := by
  intro m
  induction m with
  | nil => intro k' k v h; simp [dictInsert, dictLookup_cons, h]
  | cons kv rest ih =>
    intro k' k v h
    obtain ⟨k0, v0⟩ := kv
    rw [dictInsert_cons]
    by_cases h0 : k0 = k'
    · rw [if_pos h0, dictLookup_cons, dictLookup_cons, if_neg h,
        if_neg (h0 ▸ h : k0 ≠ k)]
    · rw [if_neg h0, dictLookup_cons, dictLookup_cons]
      by_cases hk : k0 = k
      · rw [if_pos hk, if_pos hk]
      · rw [if_neg hk, if_neg hk]
        exact ih k' k v h

lemma dictLookup_foldl_insert {α : Type} :
    ∀ (l : List (String × α)) (m : List (String × α)) (k : String),
      dictLookup (l.foldl (fun acc kv => dictInsert acc kv.1 kv.2) m) k =
        ((l.reverse.find? (fun kv => kv.1 == k)).map (fun kv => kv.2)).or
          (dictLookup m k) := by
  intro l
  induction l with
  | nil => intro m k; simp [Option.or]
  | cons kv l ih =>
    intro m k
    rw [List.foldl_cons, ih, List.reverse_cons, List.find?_append]
    cases hf : l.reverse.find? (fun kv => kv.1 == k) with
    | some kv' => simp [Option.or]
    | none =>
      simp only [Option.map_none, Option.none_or]
      by_cases hk : kv.1 = k
      · have hb : (kv.1 == k) = true := beq_iff_eq.mpr hk
        simp [List.find?, hb, Option.or, hk, dictLookup_dictInsert_self]
      · have hb : (kv.1 == k) = false := beq_eq_false_iff_ne.mpr hk
        simp [List.find?, hb, Option.or, dictLookup_dictInsert_ne m kv.1 k kv.2 hk]

lemma foldl_ogMetaStep_eq : ∀ (ns : List Node) (m : List (String × String)),
    ns.foldl ogMetaStep m =
      (ns.filterMap ogEntry).foldl (fun acc kv => dictInsert acc kv.1 kv.2) m := by
  intro ns
  induction ns with
  | nil => intro m; rfl
  | cons n ns ih =>
    intro m
    rw [List.foldl_cons, List.filterMap_cons]
    by_cases h : (ogKey ((n.attr "property").getD "") ≠ "" ∧
        (n.attr "content").getD "" ≠ "")
    · have he : ogEntry n = some (ogKey ((n.attr "property").getD ""),
          pyStrip ((n.attr "content").getD "")) := by
        simp only [ogEntry, if_pos h]
      have hs : ogMetaStep m n = dictInsert m (ogKey ((n.attr "property").getD ""))
          (pyStrip ((n.attr "content").getD "")) := by
        simp only [ogMetaStep, if_pos h]
      rw [he, hs, List.foldl_cons, ih]
    · have he : ogEntry n = none := by simp only [ogEntry, if_neg h]
      have hs : ogMetaStep m n = m := by simp only [ogMetaStep, if_neg h]
      rw [he, hs, ih]

/-! ## Claim theorems: Open-Graph extraction -/

/-- C7 counterexample: the Open-Graph loop does not store a value for every
`meta` whose `property` matches `^og:`, and its key is not the `og:`-prefix
strip.  A `meta property="og:title" content=""` is skipped entirely (the claim
would give `{title: ""}`), and a `meta property="og:og:title" content="A"` is
stored under key `title` — every occurrence of `og:` is removed, not just the
prefix — so the claimed key `og:title` is absent. -/
theorem og_extraction_counterexample :
    ogDataOf docEmptyContent = [] ∧
    ogDataOf docEmptyContent ≠ [("title", "")] ∧
    ogDataOf docOgOg = [("title", "A")] ∧
    dictLookup (ogDataOf docOgOg) "og:title" = none := by
  decide

/-- C7 amended: for every `meta` whose `property` matches `^og:`, whose key
(the property with every occurrence of `og:` removed) is nonempty, and whose
`content` attribute is present and nonempty, the trimmed content is stored
under that key, with later duplicates overwriting earlier ones: the value the
map holds at any key is the trimmed content of the last such qualifying meta,
and a document with `og:title` `"A"` followed by `og:title` `"B"` yields
`{title: "B"}`. -/
theorem og_last_wins_lookup :
    (∀ (soup : List Node) (k : String),
      dictLookup (ogDataOf soup) k =
        ((ogQualifying soup).reverse.find? (fun kv => kv.1 == k)).map
          (fun kv => kv.2)) ∧
    ogDataOf docAB = [("title", "B")] := by
  constructor
  · intro soup k
    unfold ogDataOf ogQualifying
    rw [foldl_ogMetaStep_eq, dictLookup_foldl_insert]
    simp [dictLookup]
  · decide

/-! ## Claim theorems: totality of `parse_content` -/

lemma getItemE_ok (n : Node) (hc : (n.attr "content").getD "" ≠ "") :
    getItemE n "content" = Except.ok ((n.attr "content").getD "") := by
  cases ha : n.attr "content" with
  | none => rw [ha] at hc; simp at hc
  | some v => simp [getItemE, ha]

lemma descriptionOfE_ok (soup : List Node) :
    descriptionOfE soup = Except.ok (descriptionOf soup) := by
  unfold descriptionOfE descriptionOf
  cases h : findMetaDesc soup with
  | none => rfl
  | some m =>
    show (if (m.attr "content").getD "" ≠ "" then do
        let c ← getItemE m "content"
        pure (pyStrip c)
      else pure "") =
      Except.ok (if (m.attr "content").getD "" ≠ "" then
        pyStrip ((m.attr "content").getD "") else "")
    by_cases hc : (m.attr "content").getD "" ≠ ""
    · rw [if_pos hc, if_pos hc, getItemE_ok m hc]
      rfl
    · rw [if_neg hc, if_neg hc]
      rfl

lemma ogMetaStepE_ok (m : List (String × String)) (n : Node) :
    ogMetaStepE m n = Except.ok (ogMetaStep m n) := by
  unfold ogMetaStepE ogMetaStep
  by_cases h : (ogKey ((n.attr "property").getD "") ≠ "" ∧
      (n.attr "content").getD "" ≠ "")
  · rw [if_pos h, if_pos h, getItemE_ok n h.2]
    rfl
  · rw [if_neg h, if_neg h]
    rfl

lemma foldlM_ogMetaStepE_ok : ∀ (ns : List Node) (m : List (String × String)),
    ns.foldlM ogMetaStepE m = Except.ok (ns.foldl ogMetaStep m) := by
  intro ns
  induction ns with
  | nil => intro m; rfl
  | cons n ns ih =>
    intro m
    rw [List.foldlM_cons, ogMetaStepE_ok, List.foldl_cons]
    show ns.foldlM ogMetaStepE (ogMetaStep m n) =
      Except.ok (ns.foldl ogMetaStep (ogMetaStep m n))
    exact ih _

/-- C1: `parse_content` never raises.  With the two dictionary subscripts of
its body embedded in an error monad (`KeyError` included), the fallible variant
always returns `ok`, and the value it returns is the `PageContent` record of
the total model — all four fields (title, description, Open-Graph map, cleaned
content) are always produced; internal lookup failures are prevented by the
body's guards rather than propagated. -/
theorem parse_content_never_fails (h2t : List Node → String) (soup : List Node) :
    parseContentE h2t soup = Except.ok (parseContent h2t soup) := by
  unfold parseContentE parseContent
  simp only [descriptionOfE_ok, foldlM_ogMetaStepE_ok]
  rfl

/-! ## Claim theorems: the rate limiter -/

/-- C2: on every admission call, the stored timestamps are pruned to those
within the last `window` seconds; if the pruned count reaches the limit the
call is rejected and the stored sequence is exactly the pruned one (the
rejected attempt is not recorded), otherwise the current timestamp is appended
and the call is admitted.  With `limit = 2`, `window = 10`, calls at times
0, 0, 1 for one client yield admitted, admitted, rejected, and a fourth call
at time 12 (past the window) is admitted again. -/
theorem rate_limiter_admission :
    (∀ (rl : RateLimiter) (clients : RLClients) (cid : String) (now : Int),
      ((admitClient rl clients cid now).1 = true ↔
        (prunedEntry rl clients cid now).length < rl.limit) ∧
      dictLookup (admitClient rl clients cid now).2 cid =
        some (if rl.limit ≤ (prunedEntry rl clients cid now).length then
            prunedEntry rl clients cid now
          else prunedEntry rl clients cid now ++ [now])) ∧
    (runAdmits ⟨2, 10⟩ "client" [0, 0, 1, 12]).1 = [true, true, false, true] := by
  refine ⟨fun rl clients cid now => ?_, by decide⟩
  simp only [admitClient, isRateLimited, prunedEntry]
  by_cases h : rl.limit ≤
      (((dictLookup clients cid).getD []).filter (fun t => now - t < rl.window)).length
  · rw [if_pos h, if_pos h]
    constructor
    · simp
      omega
    · simp [dictLookup_dictInsert_self]
  · rw [if_neg h, if_neg h]
    constructor
    · simp
      omega
    · simp [dictLookup_dictInsert_self]

/-! ## Lemmas: Method 3's largest-block selection -/

lemma foldl_max_spec : ∀ (ts : List String) (best : String), ∃ r,
    ts.foldl (fun b x => if x.length > b.length then x else b) best = r ∧
    ((r = best ∧ ∀ t ∈ ts, t.length ≤ best.length) ∨
     (∃ pre post, ts = pre ++ r :: post ∧ best.length < r.length ∧
       (∀ t ∈ pre, t.length < r.length) ∧ (∀ t ∈ post, t.length ≤ r.length))) := by
  intro ts
  induction ts with
  | nil =>
    intro best
    exact ⟨best, rfl, Or.inl ⟨rfl, by simp⟩⟩
  | cons x ts ih =>
    intro best
    rw [List.foldl_cons]
    by_cases hx : x.length > best.length
    · rw [if_pos hx]
      obtain ⟨r, hr, hcase⟩ := ih x
      refine ⟨r, hr, Or.inr ?_⟩
      rcases hcase with ⟨req, hall⟩ | ⟨pre, post, heq, hlt, hpre, hpost⟩
      · subst req
        exact ⟨[], ts, by simp, hx, by simp, hall⟩
      · refine ⟨x :: pre, post, by rw [heq, List.cons_append], lt_trans hx hlt, ?_, hpost⟩
        intro t ht
        rcases List.mem_cons.mp ht with h1 | h1
        · rw [h1]; exact hlt
        · exact hpre t h1
    · rw [if_neg hx]
      obtain ⟨r, hr, hcase⟩ := ih best
      refine ⟨r, hr, ?_⟩
      rcases hcase with ⟨req, hall⟩ | ⟨pre, post, heq, hlt, hpre, hpost⟩
      · refine Or.inl ⟨req, ?_⟩
        intro t ht
        rcases List.mem_cons.mp ht with h1 | h1
        · rw [h1]; exact Nat.le_of_not_lt hx
        · exact hall t h1
      · refine Or.inr ⟨x :: pre, post, by rw [heq, List.cons_append], hlt, ?_, hpost⟩
        intro t ht
        rcases List.mem_cons.mp ht with h1 | h1
        · rw [h1]; exact lt_of_le_of_lt (Nat.le_of_not_lt hx) hlt
        · exact hpre t h1

lemma firstMax_spec (a : String) (ts : List String) : ∃ r pre post,
    firstMax (a :: ts) = some r ∧ a :: ts = pre ++ r :: post ∧
    (∀ t ∈ pre, t.length < r.length) ∧ (∀ t ∈ post, t.length ≤ r.length) := by
  obtain ⟨r, hr, hcase⟩ := foldl_max_spec ts a
  have hfm : firstMax (a :: ts) = some r := by
    simp only [firstMax, hr]
  rcases hcase with ⟨req, hall⟩ | ⟨pre, post, heq, hlt, hpre, hpost⟩
  · refine ⟨r, [], ts, hfm, by rw [req, List.nil_append], by simp, ?_⟩
    intro t ht
    rw [req]
    exact hall t ht
  · refine ⟨r, a :: pre, post, hfm, by rw [heq, List.cons_append], ?_, hpost⟩
    intro t ht
    rcases List.mem_cons.mp ht with h1 | h1
    · rw [h1]; exact hlt
    · exact hpre t h1

/-! ## Claim theorems: the extraction cascade -/

/-- C4: if any element matches the Method-1 container selectors, the extracted
main content is the text of the first matched element in document order, with
depth-first text segments joined by newlines, and the extractor commits to
Method 1 — Methods 2–4 are not consulted. -/
theorem method1_priority (h2t : List Node → String) (soup : List Node)
    (c : Node) (rest : List Node) (h : containerMatches soup = c :: rest) :
    extractArticleContent h2t soup = getTextSep "\n" c ∧ selectsMethod soup = 1 := by
  constructor
  · simp only [extractArticleContent, h]
  · simp only [selectsMethod, h]

/-- Witness for `method1_priority`: a document with one `<article>` and two
`<div>` blocks longer than 200 characters extracts the article text, whatever
the Method-3 candidates' lengths. -/
theorem method1_priority_witness :
    extractArticleContent h2tZero docC4 =
      getTextSep "\n" (Node.elem "article" [] [Node.text "Short article text."]) ∧
    selectsMethod docC4 = 1 :=
  method1_priority h2tZero docC4
    (Node.elem "article" [] [Node.text "Short article text."]) [] rfl

/-- C5 counterexample: with no containers, exactly five paragraphs of 50
trimmed characters each and no div/section block over 200 characters, the
joined Method-2 result has 258 characters, which fails the `> 500` check in
the source, so the extractor does not select Method 2 — it falls through to
Method 4 and the claimed joined-paragraph content is not returned. -/
theorem method2_short_paragraphs_fall_through :
    containerMatches doc5 = [] ∧
    (pTags doc5).length = 5 ∧
    ((pTags doc5).map (fun p => (pyStrip (getText p)).length)) = [50, 50, 50, 50, 50] ∧
    (method2Join doc5).length = 258 ∧
    textBlocksOf doc5 = [] ∧
    selectsMethod doc5 = 4 ∧
    extractArticleContent h2tZero doc5 ≠ method2Join doc5 := by
  refine ⟨rfl, by decide, by decide, by decide, rfl, by decide, by decide⟩

/-- C5 amended: Method 2 is selected only when there are more than 3
paragraphs *and* the blank-line join of the paragraphs longer than 40 trimmed
characters exceeds 500 characters; in that case the joined result is the main
content.  (Five 50-character paragraphs join to 258 ≤ 500 characters and fall
through to Method 4; five 110-character paragraphs join to 558 > 500 and are
selected.) -/
theorem method2_selection (h2t : List Node → String) (soup : List Node)
    (hc : containerMatches soup = [])
    (hp : (pTags soup).length > 3)
    (hj : (method2Join soup).length > 500) :
    extractArticleContent h2t soup = method2Join soup ∧ selectsMethod soup = 2 := by
  constructor
  · simp only [extractArticleContent, hc, if_pos (And.intro hp hj)]
  · simp only [selectsMethod, hc, if_pos (And.intro hp hj)]

/-- Witness for `method2_selection` on five 110-character paragraphs. -/
theorem method2_selection_witness :
    extractArticleContent h2tZero doc5b = method2Join doc5b ∧
    selectsMethod doc5b = 2 :=
  method2_selection h2tZero doc5b rfl (by decide) (by decide)

/-- C6 counterexample: Method 3 keeps only blocks whose trimmed text is
*strictly longer* than 200 characters and uses the trimmed text, not the full
text.  A document whose only `<div>` has exactly 200 trimmed characters is not
a candidate (the claim says blocks "shorter than 200" are discarded, so a
200-character block would survive): extraction falls through to Method 4 and
returns the empty markdown conversion instead of the div text.  And for a div
whose text has surrounding whitespace, the content is the trimmed text, which
differs from the full text. -/
theorem method3_boundary_counterexample :
    containerMatches doc200 = [] ∧
    (pTags doc200).length = 0 ∧
    ((divSections doc200).map (fun t => (pyStrip (getText t)).length)) = [200] ∧
    textBlocksOf doc200 = [] ∧
    selectsMethod doc200 = 4 ∧
    extractArticleContent h2tZero doc200 = "" ∧
    ((divSections doc210).map getText) ≠ [String.mk (List.replicate 210 'd')] ∧
    selectsMethod doc210 = 3 ∧
    extractArticleContent h2tZero doc210 = String.mk (List.replicate 210 'd') := by
  refine ⟨rfl, by decide, by decide, rfl, by decide, by decide, by decide, by decide,
    by decide⟩

/-- C6 amended: when Methods 1 and 2 both fail, Method 3 scans every `div` and
`section`, discards any whose trimmed text is 200 characters or shorter, and —
if any candidate remains — uses as main content the trimmed text of the
candidate with maximal trimmed length, ties broken in favor of the candidate
first in document order: the result splits the candidate list into strictly
shorter predecessors and no-longer successors. -/
theorem method3_largest_block (h2t : List Node → String) (soup : List Node)
    (hc : containerMatches soup = [])
    (h2 : ¬((pTags soup).length > 3 ∧ (method2Join soup).length > 500))
    (h3 : textBlocksOf soup ≠ []) :
    selectsMethod soup = 3 ∧
    ∃ pre post,
      textBlocksOf soup = pre ++ extractArticleContent h2t soup :: post ∧
      (∀ t ∈ pre, t.length < (extractArticleContent h2t soup).length) ∧
      (∀ t ∈ post, t.length ≤ (extractArticleContent h2t soup).length) := by
  cases hb : textBlocksOf soup with
  | nil => exact absurd hb h3
  | cons a ts =>
    obtain ⟨r, pre, post, hfm, heq, hpre, hpost⟩ := firstMax_spec a ts
    have hext : extractArticleContent h2t soup = r := by
      simp only [extractArticleContent, hc, if_neg h2, hb, hfm]
    have hsel : selectsMethod soup = 3 := by
      simp only [selectsMethod, hc, if_neg h2, hb, hfm]
    refine ⟨hsel, pre, post, by rw [hext]; exact heq, ?_, ?_⟩
    · intro t ht
      rw [hext]
      exact hpre t ht
    · intro t ht
      rw [hext]
      exact hpost t ht

/-- Witness for `method3_largest_block` on a document whose single `<div>`
trims to 210 characters. -/
theorem method3_largest_block_witness :
    selectsMethod doc210 = 3 ∧
    ∃ pre post,
      textBlocksOf doc210 = pre ++ extractArticleContent h2tZero doc210 :: post ∧
      (∀ t ∈ pre, t.length < (extractArticleContent h2tZero doc210).length) ∧
      (∀ t ∈ post, t.length ≤ (extractArticleContent h2tZero doc210).length) :=
  method3_largest_block h2tZero doc210 rfl (by decide) (by decide)

/-! ## Claim theorems: the resilient executor -/

/-- C3 counterexample: an always-failing operation with `max_retries = 3`
produces 4 failure log events, not 3 — one warning per attempt plus one
distinct terminal error marked "max retries reached". -/
theorem retry_log_count_counterexample :
    (analyze "key" "content" "summary" 3 (fun _ _ => Except.error "boom")).1.length = 4 ∧
    (analyze "key" "content" "summary" 3 (fun _ _ => Except.error "boom")).1.length ≠ 3 := by
  decide

/-- C3 amended: for an operation failing on every attempt with
`max_retries = 3`, the call emits exactly 4 failure log events — a warning for
each of the 3 attempts, in order, followed by one terminal error marked
"max retries reached" — and raises an error wrapping the last underlying
failure's message; every failed attempt is reported before retrying or
terminating. -/
theorem retry_exhaustion_behavior (msgs : Nat → String)
    (apiKey content queryType : String) (hk : apiKey ≠ "") :
    analyze apiKey content queryType 3 (fun _ i => Except.error (msgs i)) =
      ([⟨.warning, "API call failed (attempt 1/3): " ++ msgs 0⟩,
        ⟨.warning, "API call failed (attempt 2/3): " ++ msgs 1⟩,
        ⟨.warning, "API call failed (attempt 3/3): " ++ msgs 2⟩,
        ⟨.error, "API call failed (max retries reached): " ++ msgs 2⟩],
       .exn ("Perplexity API call error: " ++ msgs 2)) := by
  unfold analyze
  rw [if_neg hk]
  rfl

/-- Witness for `retry_exhaustion_behavior` with every attempt failing with
message `boom`. -/
theorem retry_exhaustion_behavior_witness :
    analyze "key" "c" "summary" 3 (fun _ _ => Except.error "boom") =
      ([⟨.warning, "API call failed (attempt 1/3): boom"⟩,
        ⟨.warning, "API call failed (attempt 2/3): boom"⟩,
        ⟨.warning, "API call failed (attempt 3/3): boom"⟩,
        ⟨.error, "API call failed (max retries reached): boom"⟩],
       .exn "Perplexity API call error: boom") :=
  retry_exhaustion_behavior (fun _ => "boom") "key" "c" "summary" (by decide)

/-- C10: calling `analyze` with a `query_type` outside
`{"summary", "analysis", "custom"}` raises no validation error: the prompt
builder falls back to the default basic-summary prompt, and with a configured
API key the call runs the ordinary retry loop on that prompt, exactly as a
normal call. -/
theorem unknown_query_type_default_prompt (content queryType : String)
    (h1 : queryType ≠ "summary") (h2 : queryType ≠ "analysis")
    (h3 : queryType ≠ "custom") :
    buildPrompt content queryType =
      "Please summarize the following content:\n\n" ++ content ++ "\n" ∧
    ∀ (apiKey : String) (maxRetries : Nat)
      (callApi : String → Nat → Except String String), apiKey ≠ "" →
      analyze apiKey content queryType maxRetries callApi =
        analyzeLoopAux maxRetries
          (callApi ("Please summarize the following content:\n\n" ++ content ++ "\n"))
          (List.range maxRetries) := by
  have hbp : buildPrompt content queryType =
      "Please summarize the following content:\n\n" ++ content ++ "\n" := by
    unfold buildPrompt
    rw [if_neg h1, if_neg h2, if_neg h3]
  refine ⟨hbp, fun apiKey maxRetries callApi hk => ?_⟩
  unfold analyze
  rw [if_neg hk, hbp]

/-- Witness for `unknown_query_type_default_prompt` at `query_type = "weird"`. -/
theorem unknown_query_type_default_prompt_witness :
    buildPrompt "c" "weird" = "Please summarize the following content:\n\nc\n" ∧
    analyze "key" "c" "weird" 2 (fun _ _ => Except.ok "r") =
      analyzeLoopAux 2 (fun _ => Except.ok "r") (List.range 2) := by
  constructor
  · exact (unknown_query_type_default_prompt "c" "weird" (by decide) (by decide)
      (by decide)).1
  · exact (unknown_query_type_default_prompt "c" "weird" (by decide) (by decide)
      (by decide)).2 "key" 2 (fun _ _ => Except.ok "r") (by decide)

end WebInsight
